import Mathlib

/-!
Verification of the vrenv core (src/lib.rs): a shallow embedding of
`extract_secret_name_from_arn`, `json_to_env_format` and `create_env_file`,
together with theorems settling the specification claims.

Modelling conventions:
* Rust strings are modelled as Lean `String` (a list of Unicode scalar
  values); `str::split(c)` for a one-character pattern is modelled by
  `splitChar` on the character list.  Rust's byte-lexicographic ordering on
  UTF-8 strings coincides with codepoint-lexicographic ordering, which is
  what `lexLe` below implements.
* `serde_json::Value` is modelled by `JValue`; JSON numbers are modelled as
  integers (the claims under verification only involve integer numbers).
* Fallible Rust functions returning `anyhow::Result` are modelled with
  `Except VrError`.
* Filesystem effects in `create_env_file` are modelled by an explicit
  state/oracle pair (`FsState`, `FsOracle`).
-/

namespace Vrenv

/-- Model of Rust `str::split(sep)` for a one-character separator, acting on
the character list of the string.  It always returns at least one (possibly
empty) piece, like the Rust iterator. -/
def splitChar (sep : Char) : List Char → List (List Char)
  | [] => [[]]
  | c :: cs =>
    if c = sep then [] :: splitChar sep cs
    else
      match splitChar sep cs with
      | [] => [[c]]
      | t :: ts => (c :: t) :: ts

/-- The split of a string is never the empty list of pieces: its head is a
prefix of the input and every later piece is an infix of the input. -/
theorem splitChar_structure (sep : Char) :
    ∀ s : List Char, ∃ t ts, splitChar sep s = t :: ts ∧ t <+: s ∧ ∀ u ∈ ts, u <:+: s := by
  intro s
  induction s with
  | nil => exact ⟨[], [], rfl, List.nil_prefix, by simp⟩
  | cons c cs ih =>
    obtain ⟨t, ts, hsplit, hpre, hinf⟩ := ih
    by_cases hc : c = sep
    · refine ⟨[], t :: ts, by simp [splitChar, hc, hsplit], List.nil_prefix, ?_⟩
      intro u hu
      rcases List.mem_cons.mp hu with h | h
      · exact h ▸ List.infix_cons hpre.isInfix
      · exact List.infix_cons (hinf u h)
    · refine ⟨c :: t, ts, by simp [splitChar, hc, hsplit], ?_, ?_⟩
      · obtain ⟨r, hr⟩ := hpre
        exact ⟨r, by simp [hr]⟩
      · intro u hu
        exact List.infix_cons (hinf u hu)

/-- Splitting never yields the empty list of pieces. -/
theorem splitChar_ne_nil (sep : Char) (s : List Char) : splitChar sep s ≠ [] := by
  obtain ⟨t, ts, h, -, -⟩ := splitChar_structure sep s
  simp [h]

/-- Every piece of a split is an infix of the input. -/
theorem splitChar_mem_infix (sep : Char) (s : List Char) :
    ∀ u ∈ splitChar sep s, u <:+: s := by
  obtain ⟨t, ts, h, hpre, hinf⟩ := splitChar_structure sep s
  intro u hu
  rw [h] at hu
  rcases List.mem_cons.mp hu with h' | h'
  · exact h' ▸ hpre.isInfix
  · exact hinf u h'

/-- Shallow embedding of `extract_secret_name_from_arn` (src/lib.rs, lines
61-71): split on `:` and take field 6, take the text before the first `-` of
that field, falling back to `"secret"`, then take the last `/`-separated
component of the result, falling back to `"secret"`. -/
def extract_secret_name_from_arn (arn : List Char) : List Char :=
  let step : Option (List Char) :=
    ((splitChar ':' arn)[6]?).bind fun f => (splitChar '-' f).head?
  ((splitChar '/' (step.getD ("secret".toList))).getLast?).getD ("secret".toList)

/-- Formalisation of claim C4's description of the algorithm: field at index 6
of the `:`-split (default `"secret"`), then the first token of its `-`-split,
then the last component of that token's `/`-split. -/
def extract_stem_c4 (arn : List Char) : List Char :=
  let field6 := ((splitChar ':' arn)[6]?).getD ("secret".toList)
  let tok := ((splitChar '-' field6).head?).getD ("secret".toList)
  ((splitChar '/' tok).getLast?).getD ("secret".toList)

/-- Formalisation of claim C5's description: strip the `/`-delimited path
prefix of field 6 first, and only then take the text before the first `-`. -/
def extract_stem_c5 (arn : List Char) : List Char :=
  match (splitChar ':' arn)[6]? with
  | some f =>
    let stripped := ((splitChar '/' f).getLast?).getD ("secret".toList)
    ((splitChar '-' stripped).head?).getD ("secret".toList)
  | none => "secret".toList

/-- All-or-nothing variant of the extractor: `none` exactly when one of the
three `Option`-yielding steps of the Rust pipeline is absent, i.e. when a
`unwrap_or("secret")` fallback would fire. -/
def extract_opt (arn : List Char) : Option (List Char) :=
  ((splitChar ':' arn)[6]?).bind fun f =>
    ((splitChar '-' f).head?).bind fun t =>
      (splitChar '/' t).getLast?

/-- Text of field `f` before its first hyphen (first token of the `-`-split). -/
def beforeFirstHyphen (f : List Char) : List Char :=
  ((splitChar '-' f).head?).getD ("secret".toList)

/-- Last `/`-separated component of a token. -/
def lastSlashComponent (t : List Char) : List Char :=
  ((splitChar '/' t).getLast?).getD ("secret".toList)

/-- When field 6 exists, the extractor's result is an infix of the input. -/
theorem extract_infix_of_field6 {arn f : List Char}
    (h6 : (splitChar ':' arn)[6]? = some f) :
    extract_secret_name_from_arn arn <:+: arn := by
  obtain ⟨t, ts, hsplit, hpre, -⟩ := splitChar_structure '-' f
  have hne : splitChar '/' t ≠ [] := splitChar_ne_nil '/' t
  have hlast := List.getLast?_eq_getLast_of_ne_nil hne
  have hmem : (splitChar '/' t).getLast hne ∈ splitChar '/' t := List.getLast_mem hne
  have h1 : (splitChar '/' t).getLast hne <:+: t := splitChar_mem_infix '/' t _ hmem
  have h2 : t <:+: f := hpre.isInfix
  have h3 : f <:+: arn := splitChar_mem_infix ':' arn f (List.getElem?_mem h6)
  have hval : extract_secret_name_from_arn arn = (splitChar '/' t).getLast hne := by
    unfold extract_secret_name_from_arn
    simp [h6, hsplit, hlast]
  rw [hval]
  exact h1.trans (h2.trans h3)

/-- C4: `extract_secret_name_from_arn` computes its result by taking the field
at index 6 of the `:`-split (falling back to "secret" when absent), then the
first token of that field's `-`-split, then the last component of that token's
`/`-split; it is pure and total by construction, and case-preserving: its
result is either the literal "secret" or a verbatim infix of the input. -/
theorem extract_matches_c4_description (arn : List Char) :
    extract_secret_name_from_arn arn = extract_stem_c4 arn ∧
      (extract_secret_name_from_arn arn = "secret".toList ∨
        extract_secret_name_from_arn arn <:+: arn) := by
  constructor
  · cases h6 : (splitChar ':' arn)[6]? with
    | none =>
      unfold extract_secret_name_from_arn extract_stem_c4
      rw [h6]
      decide
    | some f =>
      obtain ⟨t, ts, hsplit, -, -⟩ := splitChar_structure '-' f
      unfold extract_secret_name_from_arn extract_stem_c4
      rw [h6]
      simp [hsplit]
  · cases h6 : (splitChar ':' arn)[6]? with
    | none =>
      left
      unfold extract_secret_name_from_arn
      rw [h6]
      decide
    | some f => exact Or.inr (extract_infix_of_field6 h6)

/-- C5 counterexample: on the 7-field identifier "a:b:c:d:e:f:x-y/z" the code
takes the text before the first hyphen of field 6 first and then the last
slash component, giving "x", while the claim's order of operations (slash
strip first, then hyphen) gives "z". -/
theorem extract_c5_counterexample :
    extract_secret_name_from_arn ("a:b:c:d:e:f:x-y/z".toList) = "x".toList ∧
      extract_stem_c5 ("a:b:c:d:e:f:x-y/z".toList) = "z".toList ∧
      extract_secret_name_from_arn ("a:b:c:d:e:f:x-y/z".toList) ≠
        extract_stem_c5 ("a:b:c:d:e:f:x-y/z".toList) := by
  decide

/-- C5 amended: for every identifier with a 7th colon-field the extractor
returns the last `/`-component of the text before the first `-` of field 6
(the hyphen split is applied to field 6 before the slash strip); for every
identifier with fewer than 7 colon-fields it returns "secret". -/
theorem extract_c5_amended (arn : List Char) :
    (∀ f, (splitChar ':' arn)[6]? = some f →
        extract_secret_name_from_arn arn = lastSlashComponent (beforeFirstHyphen f)) ∧
      ((splitChar ':' arn)[6]? = none →
        extract_secret_name_from_arn arn = "secret".toList) := by
  constructor
  · intro f h6
    obtain ⟨t, ts, hsplit, -, -⟩ := splitChar_structure '-' f
    unfold extract_secret_name_from_arn lastSlashComponent beforeFirstHyphen
    rw [h6]
    simp [hsplit]
  · intro h6
    unfold extract_secret_name_from_arn
    rw [h6]
    decide

/-- Witness for the amended C5 on the repository's own test identifier. -/
theorem extract_c5_amended_witness :
    extract_secret_name_from_arn
        ("arn:aws:secretsmanager:us-west-2:123456789012:secret:MySecret-AbCdEf".toList) =
      lastSlashComponent (beforeFirstHyphen ("MySecret-AbCdEf".toList)) :=
  (extract_c5_amended _).1 _ (by decide)

/-- C10: the "secret" fallback fires exactly when the identifier has fewer
than 7 colon-delimited fields: with at least 7 fields every later step yields
a token, the extractor returns that token, and in particular an empty 7th
field produces the empty stem rather than "secret". -/
theorem extract_c10_fallback (arn : List Char) :
    ((extract_opt arn).isSome ↔ 7 ≤ (splitChar ':' arn).length) ∧
      (∀ s, extract_opt arn = some s → extract_secret_name_from_arn arn = s) ∧
      ((splitChar ':' arn)[6]? = some [] → extract_secret_name_from_arn arn = []) := by
  refine ⟨?_, ?_, ?_⟩
  · cases h6 : (splitChar ':' arn)[6]? with
    | none =>
      have hlen : (splitChar ':' arn).length ≤ 6 := List.getElem?_eq_none_iff.mp h6
      simp [extract_opt, h6]
      omega
    | some f =>
      obtain ⟨hlt, -⟩ := List.getElem?_eq_some_iff.mp h6
      obtain ⟨t, ts, hsplit, -, -⟩ := splitChar_structure '-' f
      have hne : splitChar '/' t ≠ [] := splitChar_ne_nil '/' t
      have hlast := List.getLast?_eq_getLast_of_ne_nil hne
      simp [extract_opt, h6, hsplit, hlast]
      omega
  · intro s hs
    cases h6 : (splitChar ':' arn)[6]? with
    | none => simp [extract_opt, h6] at hs
    | some f =>
      obtain ⟨t, ts, hsplit, -, -⟩ := splitChar_structure '-' f
      have hopt : extract_opt arn = (splitChar '/' t).getLast? := by
        unfold extract_opt
        rw [h6]
        simp [hsplit]
      rw [hopt] at hs
      unfold extract_secret_name_from_arn
      rw [h6]
      simp [hsplit, hs]
  · intro h6
    unfold extract_secret_name_from_arn
    rw [h6]
    decide

/-- Witness for C10: a 7-field identifier with an empty 7th field yields the
empty stem, and its field count is indeed at least 7. -/
theorem extract_c10_fallback_witness :
    extract_secret_name_from_arn ("a:b:c:d:e:f:".toList) = [] ∧
      7 ≤ (splitChar ':' ("a:b:c:d:e:f:".toList)).length :=
  ⟨(extract_c10_fallback _).2.2 (by decide),
    (extract_c10_fallback ("a:b:c:d:e:f:".toList)).1.mp (by decide)⟩

/-- Error taxonomy of the transformation and writing routine. -/
inductive VrError where
  | directoryCreation
  | invalidSecretFormat
  | serializationError
  | writeFail
  | metadataFail
  | permissionFail
deriving DecidableEq, Repr

/-- Model of a parsed serde_json::Value.  Numbers are modelled as integers;
object members are the map's entries in iteration order. -/
inductive JValue where
  | null
  | bool (b : Bool)
  | num (n : Int)
  | str (s : String)
  | arr (elems : List JValue)
  | obj (members : List (String × JValue))

/-- Lower-case hexadecimal digit, as used by serde_json's escape table. -/
def hexDigit (n : Nat) : Char :=
  if n < 10 then Char.ofNat (48 + n) else Char.ofNat (87 + n)

/-- Escape of a single character inside a JSON string literal, following
serde_json: quote and backslash escaped, control characters as short escapes
or a \u00XX sequence, everything else verbatim. -/
def escChar (c : Char) : List Char :=
  if c = '"' then ['\\', '"']
  else if c = '\\' then ['\\', '\\']
  else if c.toNat < 32 then
    if c = '\x08' then ['\\', 'b']
    else if c = '\t' then ['\\', 't']
    else if c = '\n' then ['\\', 'n']
    else if c = '\x0c' then ['\\', 'f']
    else if c = '\r' then ['\\', 'r']
    else ['\\', 'u', '0', '0', hexDigit (c.toNat / 16), hexDigit (c.toNat % 16)]
  else [c]

/-- A JSON string literal: quoted and escaped. -/
def jsonQuote (s : String) : String :=
  ⟨'"' :: (s.data.map escChar).flatten ++ ['"']⟩

mutual

/-- Model of serde_json::to_string on a Value: the canonical single-line JSON
serialization.  The result type is fallible, as in Rust; member keys are
strings by the type of the map, so no branch ever produces an error. -/
def serVal : JValue → Except VrError String
  | .null => .ok "null"
  | .bool b => .ok (if b then "true" else "false")
  | .num n => .ok (toString n)
  | .str s => .ok (jsonQuote s)
  | .arr xs =>
    match serArr xs with
    | .error e => .error e
    | .ok inner => .ok ("[" ++ inner ++ "]")
  | .obj ms =>
    match serObj ms with
    | .error e => .error e
    | .ok inner => .ok ("\x7b" ++ inner ++ "\x7d")

/-- Comma-joined serialization of the elements of an array. -/
def serArr : List JValue → Except VrError String
  | [] => .ok ""
  | [v] => serVal v
  | v :: w :: rest =>
    match serVal v with
    | .error e => .error e
    | .ok s =>
      match serArr (w :: rest) with
      | .error e => .error e
      | .ok r => .ok (s ++ "," ++ r)

/-- Comma-joined serialization of the members of an object. -/
def serObj : List (String × JValue) → Except VrError String
  | [] => .ok ""
  | [(k, v)] =>
    match serVal v with
    | .error e => .error e
    | .ok s => .ok (jsonQuote k ++ ":" ++ s)
  | (k, v) :: m :: rest =>
    match serVal v with
    | .error e => .error e
    | .ok s =>
      match serObj (m :: rest) with
      | .error e => .error e
      | .ok r => .ok (jsonQuote k ++ ":" ++ s ++ "," ++ r)

end

/-- Per-character key normalisation of json_to_env_format: Rust to_uppercase
(restricted here to its ASCII action) followed by the replacement of '-' and
' ' with '_'. -/
def normChar (c : Char) : Char :=
  let u := c.toUpper
  if u = '-' ∨ u = ' ' then '_' else u

/-- Key transform: uppercase, then replace every '-' and every ' ' by '_'. -/
def normKey (k : String) : String := ⟨k.data.map normChar⟩

/-- Value rendering of json_to_env_format (src/lib.rs, lines 112-119):
scalars directly, compound values through serde_json::to_string with its
error reported as a serialization failure. -/
def renderValue : JValue → Except VrError String
  | .str s => .ok s
  | .num n => .ok (toString n)
  | .bool b => .ok (if b then "true" else "false")
  | .null => .ok ""
  | v =>
    match serVal v with
    | .ok s => .ok s
    | .error _ => .error .serializationError

/-- Claim-side value stringification of the specification: literal string
contents, decimal text for numbers, true/false, empty string for null, and
the canonical single-line JSON re-serialization for arrays and objects. -/
def claimRender : JValue → String
  | .str s => s
  | .num n => toString n
  | .bool b => if b then "true" else "false"
  | .null => ""
  | v =>
    match serVal v with
    | .ok s => s
    | .error _ => ""

/-- The line-building loop of json_to_env_format (src/lib.rs, lines 110-121):
one KEY=VALUE line per member, in iteration order, stopping at the first
value that fails to serialize. -/
def renderLines : List (String × JValue) → Except VrError (List String)
  | [] => .ok []
  | (k, v) :: rest =>
    match renderValue v with
    | .error e => .error e
    | .ok ev =>
      match renderLines rest with
      | .error e => .error e
      | .ok others => .ok ((normKey k ++ "=" ++ ev) :: others)

/-- Codepoint-lexicographic comparison of character lists; on valid UTF-8 this
coincides with Rust's byte-lexicographic String order used by Vec::sort. -/
def lexLe : List Char → List Char → Bool
  | [], _ => true
  | _ :: _, [] => false
  | a :: as, b :: bs =>
    if a.toNat < b.toNat then true
    else if b.toNat < a.toNat then false
    else lexLe as bs

/-- Lexicographic order on rendered lines, as Strings. -/
def lineLe (a b : String) : Prop := lexLe a.data b.data = true

instance : DecidableRel lineLe := fun a b =>
  if h : lexLe a.data b.data = true then Decidable.isTrue h else Decidable.isFalse h

/-- The line order is total. -/
theorem lexLe_total : ∀ xs ys : List Char, lexLe xs ys = true ∨ lexLe ys xs = true
  | [], _ => Or.inl rfl
  | _ :: _, [] => Or.inr rfl
  | a :: as, b :: bs => by
    simp only [lexLe]
    by_cases hab : a.toNat < b.toNat
    · simp [hab]
    · by_cases hba : b.toNat < a.toNat
      · simp [hba]
      · simp only [hab, hba, if_false]
        exact lexLe_total as bs

/-- The line order is transitive. -/
theorem lexLe_trans : ∀ xs ys zs : List Char,
    lexLe xs ys = true → lexLe ys zs = true → lexLe xs zs = true
  | [], _, _, _, _ => rfl
  | _ :: _, [], _, h, _ => by simp [lexLe] at h
  | _ :: _, _ :: _, [], _, h => by simp [lexLe] at h
  | a :: as, b :: bs, c :: cs, h1, h2 => by
    simp only [lexLe] at h1 h2 ⊢
    by_cases hab : a.toNat < b.toNat
    · by_cases hbc : b.toNat < c.toNat
      · simp [show a.toNat < c.toNat by omega]
      · by_cases hcb : c.toNat < b.toNat
        · simp [hbc, hcb] at h2
        · simp [show a.toNat < c.toNat by omega]
    · by_cases hba : b.toNat < a.toNat
      · simp [hab, hba] at h1
      · by_cases hbc : b.toNat < c.toNat
        · simp [show a.toNat < c.toNat by omega]
        · by_cases hcb : c.toNat < b.toNat
          · simp [hbc, hcb] at h2
          · simp only [hab, hba, if_false] at h1
            simp only [hbc, hcb, if_false] at h2
            simp only [show ¬ a.toNat < c.toNat by omega,
              show ¬ c.toNat < a.toNat by omega, if_false]
            exact lexLe_trans as bs cs h1 h2

instance : IsTotal String lineLe := ⟨fun a b => lexLe_total a.data b.data⟩

instance : IsTrans String lineLe := ⟨fun a b c => lexLe_trans a.data b.data c.data⟩

/-- Shallow embedding of json_to_env_format (src/lib.rs, lines 105-132): an
object renders to its sorted lines joined by newlines with a trailing
newline; any other value is an invalid secret format. -/
def json_to_env_format (v : JValue) : Except VrError String :=
  match v with
  | .obj ms =>
    match renderLines ms with
    | .error e => .error e
    | .ok lines =>
      .ok (String.intercalate "\n" (List.insertionSort lineLe lines) ++ "\n")
  | _ => .error .invalidSecretFormat

/-- Lines 82-87 of create_env_file, with JSON parsing abstracted to its
outcome: a parsed value when the payload is JSON, none otherwise. -/
def envContent (parsed : Option JValue) (secretValue : String) : Except VrError String :=
  match parsed with
  | some v => json_to_env_format v
  | none => .ok ("SECRET_VALUE=" ++ secretValue ++ "\n")

/-- Success/failure oracle for the filesystem operations performed by
create_env_file, one flag per fallible call in source order. -/
structure FsOracle where
  hasParent : Bool
  createDirOk : Bool
  writeOk : Bool
  metadataOk : Bool
  setPermOk : Bool

/-- Observable state of the destination file: its contents and its permission
mode, when present. -/
structure FsState where
  contents : Option String
  mode : Option Nat
deriving DecidableEq, Repr

/-- Shallow embedding of create_env_file (src/lib.rs, lines 74-102) over the
filesystem model: ensure the parent directory, build the content, write it
(the fresh file carries the process's umask-derived mode), then stat the file
and set its mode to 0o600, each step failing per the oracle. -/
def create_env_file (o : FsOracle) (umaskMode : Nat) (parsed : Option JValue)
    (secretValue : String) : Except VrError FsState :=
  if o.hasParent && !o.createDirOk then .error .directoryCreation
  else
    match envContent parsed secretValue with
    | .error e => .error e
    | .ok content =>
      if !o.writeOk then .error .writeFail
      else
        let written : FsState := { contents := some content, mode := some umaskMode }
        if !o.metadataOk then .error .metadataFail
        else if !o.setPermOk then .error .permissionFail
        else .ok { written with mode := some 0o600 }

mutual

/-- Serializing any value succeeds: no branch of the serializer produces an
error, since object keys are strings by construction. -/
theorem serVal_ok : ∀ v : JValue, ∃ s, serVal v = Except.ok s
  | .null => ⟨"null", by simp [serVal]⟩
  | .bool b => ⟨if b then "true" else "false", by simp [serVal]⟩
  | .num n => ⟨toString n, by simp [serVal]⟩
  | .str s => ⟨jsonQuote s, by simp [serVal]⟩
  | .arr xs => by
    obtain ⟨s, hs⟩ := serArr_ok xs
    exact ⟨"[" ++ s ++ "]", by simp [serVal, hs]⟩
  | .obj ms => by
    obtain ⟨s, hs⟩ := serObj_ok ms
    exact ⟨"\x7b" ++ s ++ "\x7d", by simp [serVal, hs]⟩

/-- Serializing any list of array elements succeeds. -/
theorem serArr_ok : ∀ xs : List JValue, ∃ s, serArr xs = Except.ok s
  | [] => ⟨"", by simp [serArr]⟩
  | [v] => by
    obtain ⟨s, hs⟩ := serVal_ok v
    exact ⟨s, by simp [serArr, hs]⟩
  | v :: w :: rest => by
    obtain ⟨s, hs⟩ := serVal_ok v
    obtain ⟨r, hr⟩ := serArr_ok (w :: rest)
    exact ⟨s ++ "," ++ r, by simp [serArr, hs, hr]⟩

/-- Serializing any list of object members succeeds. -/
theorem serObj_ok : ∀ ms : List (String × JValue), ∃ s, serObj ms = Except.ok s
  | [] => ⟨"", by simp [serObj]⟩
  | [(k, v)] => by
    obtain ⟨s, hs⟩ := serVal_ok v
    exact ⟨jsonQuote k ++ ":" ++ s, by simp [serObj, hs]⟩
  | (k, v) :: m :: rest => by
    obtain ⟨s, hs⟩ := serVal_ok v
    obtain ⟨r, hr⟩ := serObj_ok (m :: rest)
    exact ⟨jsonQuote k ++ ":" ++ s ++ "," ++ r, by simp [serObj, hs, hr]⟩

end

/-- The source's value rendering always succeeds and agrees with the
claim-side stringification. -/
theorem renderValue_ok : ∀ v : JValue, renderValue v = Except.ok (claimRender v)
  | .null => rfl
  | .bool b => rfl
  | .num n => rfl
  | .str s => rfl
  | .arr xs => by
    obtain ⟨s, hs⟩ := serVal_ok (.arr xs)
    simp [renderValue, claimRender, hs]
  | .obj ms => by
    obtain ⟨s, hs⟩ := serVal_ok (.obj ms)
    simp [renderValue, claimRender, hs]

/-- The line-building loop produces exactly one line per member, in order. -/
theorem renderLines_ok : ∀ ms : List (String × JValue),
    renderLines ms = Except.ok (ms.map fun kv => normKey kv.1 ++ "=" ++ claimRender kv.2)
  | [] => rfl
  | (k, v) :: rest => by
    simp [renderLines, renderValue_ok v, renderLines_ok rest]

/-- Closed form of json_to_env_format on an object. -/
theorem json_obj_ok (ms : List (String × JValue)) :
    json_to_env_format (.obj ms) =
      Except.ok (String.intercalate "\n"
        (List.insertionSort lineLe
          (ms.map fun kv => normKey kv.1 ++ "=" ++ claimRender kv.2)) ++ "\n") := by
  simp [json_to_env_format, renderLines_ok]

/-- C1: on any JSON object, json_to_env_format succeeds with one KEY=VALUE
line per member (key uppercased with '-' and ' ' replaced by '_', value
stringified per type), the lines sorted lexicographically by full line text
and joined with newline with one trailing newline; in particular the
debug/port/timeout object renders to exactly "DEBUG=true\nPORT=8080\nTIMEOUT=\n". -/
theorem json_to_env_format_c1 :
    (∀ ms : List (String × JValue), ∃ lines : List String,
        json_to_env_format (.obj ms) = Except.ok (String.intercalate "\n" lines ++ "\n") ∧
          lines.Perm (ms.map fun kv => normKey kv.1 ++ "=" ++ claimRender kv.2) ∧
          List.Sorted lineLe lines) ∧
      json_to_env_format
          (.obj [("debug", .bool true), ("port", .num 8080), ("timeout", .null)]) =
        Except.ok "DEBUG=true\nPORT=8080\nTIMEOUT=\n" := by
  constructor
  · intro ms
    exact ⟨List.insertionSort lineLe (ms.map fun kv => normKey kv.1 ++ "=" ++ claimRender kv.2),
      json_obj_ok ms, List.perm_insertionSort _ _, List.sorted_insertionSort lineLe _⟩
  · rfl

/-- C2: a top-level JSON value that is not an object is rejected with the
invalid-secret-format error, both by json_to_env_format and through
create_env_file, with no fallback output. -/
theorem json_to_env_format_c2 (v : JValue) (hv : ∀ ms, v ≠ JValue.obj ms) :
    json_to_env_format v = Except.error VrError.invalidSecretFormat ∧
      ∀ (o : FsOracle) (um : Nat) (s : String),
        (o.hasParent = true → o.createDirOk = true) →
          create_env_file o um (some v) s = Except.error VrError.invalidSecretFormat := by
  have hjson : json_to_env_format v = Except.error VrError.invalidSecretFormat := by
    cases v with
    | obj ms => exact absurd rfl (hv ms)
    | null => rfl
    | bool b => rfl
    | num n => rfl
    | str s => rfl
    | arr xs => rfl
  refine ⟨hjson, ?_⟩
  rintro ⟨hp, cd, w, md, sp⟩ um s hdir
  cases hp <;> cases cd <;>
    simp_all [create_env_file, envContent]

/-- Witness for C2 at the bare array [1,2,3] with an all-succeeding oracle. -/
theorem json_to_env_format_c2_witness :
    json_to_env_format (.arr [.num 1, .num 2, .num 3]) =
        Except.error VrError.invalidSecretFormat ∧
      create_env_file ⟨true, true, true, true, true⟩ 420
          (some (.arr [.num 1, .num 2, .num 3])) "x" =
        Except.error VrError.invalidSecretFormat :=
  ⟨(json_to_env_format_c2 _ (fun _ h => JValue.noConfusion h)).1,
    (json_to_env_format_c2 _ (fun _ h => JValue.noConfusion h)).2
      ⟨true, true, true, true, true⟩ 420 "x" (fun _ => rfl)⟩

/-- C3: when the payload does not parse as JSON, create_env_file succeeds
(given working filesystem operations) and the written file consists of
exactly the text SECRET_VALUE= followed by the payload verbatim and a
trailing newline. -/
theorem create_env_file_c3 (s : String) (o : FsOracle) (um : Nat)
    (h1 : o.hasParent = true → o.createDirOk = true) (h2 : o.writeOk = true)
    (h3 : o.metadataOk = true) (h4 : o.setPermOk = true) :
    ∃ st : FsState, create_env_file o um none s = Except.ok st ∧
      st.contents = some ("SECRET_VALUE=" ++ s ++ "\n") := by
  obtain ⟨hp, cd, w, md, sp⟩ := o
  cases hp <;> cases cd <;> simp_all [create_env_file, envContent]

/-- Witness for C3 on the specification's example payload. -/
theorem create_env_file_c3_witness :
    ∃ st : FsState,
      create_env_file ⟨true, true, true, true, true⟩ 420 none "not json at all" =
          Except.ok st ∧
        st.contents = some ("SECRET_VALUE=" ++ "not json at all" ++ "\n") :=
  create_env_file_c3 "not json at all" ⟨true, true, true, true, true⟩ 420
    (fun _ => rfl) rfl rfl rfl

/-- C9: two distinct original keys that normalize to the same environment key
each produce their own line; the output carries the same KEY twice, with no
deduplication and no error. -/
theorem json_to_env_format_c9 (k1 k2 v1 v2 : String)
    (_hne : k1 ≠ k2) (hcollide : normKey k1 = normKey k2) :
    ∃ out, json_to_env_format (.obj [(k1, .str v1), (k2, .str v2)]) = Except.ok out ∧
      (out = String.intercalate "\n"
          [normKey k1 ++ "=" ++ v1, normKey k1 ++ "=" ++ v2] ++ "\n" ∨
        out = String.intercalate "\n"
          [normKey k1 ++ "=" ++ v2, normKey k1 ++ "=" ++ v1] ++ "\n") := by
  have h := json_obj_ok [(k1, .str v1), (k2, .str v2)]
  simp only [List.map_cons, List.map_nil, claimRender] at h
  rw [← hcollide] at h
  by_cases hle : lineLe (normKey k1 ++ "=" ++ v1) (normKey k1 ++ "=" ++ v2)
  · refine ⟨_, h, Or.inl ?_⟩
    simp [List.insertionSort, List.orderedInsert, hle]
  · refine ⟨_, h, Or.inr ?_⟩
    simp [List.insertionSort, List.orderedInsert, hle]

/-- Witness for C9 on the colliding keys "a-b" and "A_B". -/
theorem json_to_env_format_c9_witness :
    ∃ out, json_to_env_format (.obj [("a-b", .str "one"), ("A_B", .str "two")]) =
        Except.ok out ∧
      (out = String.intercalate "\n"
          [normKey "a-b" ++ "=" ++ "one", normKey "a-b" ++ "=" ++ "two"] ++ "\n" ∨
        out = String.intercalate "\n"
          [normKey "a-b" ++ "=" ++ "two", normKey "a-b" ++ "=" ++ "one"] ++ "\n") :=
  json_to_env_format_c9 "a-b" "A_B" "one" "two" (by decide) (by decide)

/-- C8: re-serialization of a parsed JSON value always succeeds, so the
serialization-error branch of json_to_env_format is unreachable: no input
value can make it return that error. -/
theorem serialization_error_unreachable_c8 (v : JValue) :
    (∃ s, serVal v = Except.ok s) ∧
      json_to_env_format v ≠ Except.error VrError.serializationError := by
  refine ⟨serVal_ok v, ?_⟩
  cases v with
  | obj ms => simp [json_obj_ok]
  | null => simp [json_to_env_format]
  | bool b => simp [json_to_env_format]
  | num n => simp [json_to_env_format]
  | str s => simp [json_to_env_format]
  | arr xs => simp [json_to_env_format]

/-- A scalar JSON value: string, number, boolean or null. -/
def isScalar : JValue → Bool
  | .null => true
  | .bool _ => true
  | .num _ => true
  | .str _ => true
  | .arr _ => false
  | .obj _ => false

/-- Split a character list at its first '=': the text before it and the text
after it. -/
def splitEqChars : List Char → List Char × List Char
  | [] => ([], [])
  | c :: cs =>
    if c = '=' then ([], cs)
    else
      let r := splitEqChars cs
      (c :: r.1, r.2)

/-- Split a rendered line at its first '='. -/
def splitFirstEq (s : String) : String × String :=
  ((⟨(splitEqChars s.data).1⟩ : String), (⟨(splitEqChars s.data).2⟩ : String))

/-- Splitting at the first '=' recovers the two sides when the left side is
free of '='. -/
theorem splitEqChars_append (k : List Char) (hk : '=' ∉ k) (v : List Char) :
    splitEqChars (k ++ '=' :: v) = (k, v) := by
  induction k with
  | nil => simp [splitEqChars]
  | cons c cs ih =>
    have hc : c ≠ '=' := fun h => hk (h ▸ List.mem_cons_self c cs)
    have hcs : '=' ∉ cs := fun h => hk (List.mem_cons_of_mem c h)
    simp [splitEqChars, hc, ih hcs]

/-- String version of the recovery lemma, on a KEY=VALUE line. -/
theorem splitFirstEq_line (k w : String) (hk : '=' ∉ k.data) :
    splitFirstEq (k ++ "=" ++ w) = (k, w) := by
  have hdata : (k ++ "=" ++ w).data = k.data ++ '=' :: w.data := by
    simp
  unfold splitFirstEq
  rw [hdata, splitEqChars_append k.data hk w.data]

/-- C6 counterexample: on the object with the single key "a=b" (value "v"),
the rendered line is "A=B=v"; splitting it at its first '=' yields the pair
("A", "B=v"), not the claimed mapping entry (normKey "a=b", "v"). -/
theorem json_roundtrip_c6_counterexample :
    json_to_env_format (.obj [("a=b", .str "v")]) = Except.ok "A=B=v\n" ∧
      splitFirstEq "A=B=v" = ("A", "B=v") ∧
      (("A" : String), ("B=v" : String)) ≠ (normKey "a=b", "v") := by
  refine ⟨rfl, rfl, ?_⟩
  decide

/-- C6 amended: for objects whose values are all scalars and whose normalized
keys (equivalently, original keys) contain no '=', splitting each rendered
line at its first '=' reconstructs, up to the sorting permutation, exactly
the mapping sending each normalized key to its stringified value. -/
theorem json_roundtrip_c6_amended (ms : List (String × JValue))
    (_hscalar : ∀ kv ∈ ms, isScalar kv.2 = true)
    (hkeys : ∀ kv ∈ ms, '=' ∉ (normKey kv.1).data) :
    ∃ lines : List String,
      json_to_env_format (.obj ms) = Except.ok (String.intercalate "\n" lines ++ "\n") ∧
        (lines.map splitFirstEq).Perm
          (ms.map fun kv => (normKey kv.1, claimRender kv.2)) := by
  refine ⟨List.insertionSort lineLe (ms.map fun kv => normKey kv.1 ++ "=" ++ claimRender kv.2),
    json_obj_ok ms, ?_⟩
  have hperm := (List.perm_insertionSort lineLe
    (ms.map fun kv => normKey kv.1 ++ "=" ++ claimRender kv.2)).map splitFirstEq
  refine hperm.trans ?_
  rw [List.map_map]
  have heq : (ms.map (splitFirstEq ∘ fun kv => normKey kv.1 ++ "=" ++ claimRender kv.2)) =
      ms.map fun kv => (normKey kv.1, claimRender kv.2) := by
    apply List.map_congr_left
    intro kv hkv
    exact splitFirstEq_line (normKey kv.1) (claimRender kv.2) (hkeys kv hkv)
  exact heq ▸ List.Perm.refl _

/-- Witness for the amended C6 on a small all-scalar object. -/
theorem json_roundtrip_c6_amended_witness :
    ∃ lines : List String,
      json_to_env_format (.obj [("debug", .bool true), ("port", .num 8080)]) =
          Except.ok (String.intercalate "\n" lines ++ "\n") ∧
        (lines.map splitFirstEq).Perm
          ([("debug", JValue.bool true), ("port", JValue.num 8080)].map
            fun kv => (normKey kv.1, claimRender kv.2)) :=
  json_roundtrip_c6_amended [("debug", .bool true), ("port", .num 8080)]
    (by decide) (by decide)

/-- C7: every successful run of create_env_file leaves the written file with
permission mode exactly 0o600, whatever the umask-derived mode of the fresh
file was; and when setting permissions fails after a successful write, the
call returns an error rather than succeeding. -/
theorem create_env_file_c7 :
    (∀ (o : FsOracle) (um : Nat) (p : Option JValue) (s : String) (st : FsState),
        create_env_file o um p s = Except.ok st → st.mode = some 0o600) ∧
      (∀ (o : FsOracle) (um : Nat) (p : Option JValue) (s : String),
        o.setPermOk = false →
          ∀ st : FsState, create_env_file o um p s ≠ Except.ok st) := by
  constructor
  · rintro ⟨hp, cd, w, md, sp⟩ um p s st h
    cases henv : envContent p s <;>
      cases hp <;> cases cd <;> cases w <;> cases md <;> cases sp <;>
        simp_all [create_env_file] <;> simp [← h]
  · rintro ⟨hp, cd, w, md, sp⟩ um p s hsp st h
    cases henv : envContent p s <;>
      cases hp <;> cases cd <;> cases w <;> cases md <;>
        simp_all [create_env_file]

/-- Witness for C7: a successful concrete run ends with mode 0o600, and the
same run with a failing permission step does not succeed. -/
theorem create_env_file_c7_witness :
    (⟨some "SECRET_VALUE=x\n", some 0o600⟩ : FsState).mode = some 0o600 ∧
      create_env_file ⟨true, true, true, true, false⟩ 420 none "x" ≠
        Except.ok ⟨some "SECRET_VALUE=x\n", some 0o600⟩ :=
  ⟨create_env_file_c7.1 ⟨true, true, true, true, true⟩ 420 none "x"
      ⟨some "SECRET_VALUE=x\n", some 0o600⟩ rfl,
    create_env_file_c7.2 ⟨true, true, true, true, false⟩ 420 none "x" rfl
      ⟨some "SECRET_VALUE=x\n", some 0o600⟩⟩

end Vrenv
